import Mathlib

/-!
Verification development for the `ai-rfp` procurement workflow repository.

The definitions below are shallow embeddings of the repository's request
handlers and helper functions (TypeScript), translated function by function:

* `calculatePriceConfidence` and `retryOperation` from the
  attachment-enrichment route;
* `normalizeDeliveryToDays` and its regex helpers from the comparison route;
* the `RFP-ID` extraction regex of the inbound-proposal webhook;
* a relational-state model of the four tables declared in the migration
  script `20251203060624_init/migration.sql` together with the state effects
  of the send / webhook / compare / vendor handlers;
* the pure data transformation of the attachment-enrichment handler.

JavaScript `number` values are modelled as real numbers where the code
performs transcendental arithmetic (`Math.exp`) and as rationals or naturals
elsewhere; JSON objects are modelled as association lists keyed by strings.
External collaborators (LLM calls, OCR, email delivery, blob storage) are
oracle parameters: the handlers' own control flow and state effects are the
translated part.
-/

namespace AiRfp

/-! ## Price-confidence score

Source (`process-attachments/route.ts`):

```ts
function calculatePriceConfidence(emailPrice: number | null, ocrPrice: number | null): number {
  if (emailPrice === null || ocrPrice === null || emailPrice === 0) { return 50; }
  const difference = Math.abs(emailPrice - ocrPrice);
  const k = 5;
  const ratio = difference / emailPrice;
  const score = 100 * Math.exp(-k * ratio);
  return Math.round(Math.max(0, Math.min(100, score)));
}
```

`Math.round x` is `⌊x + 1/2⌋`, which is Mathlib's `round`. -/

noncomputable def calculatePriceConfidence (emailPrice ocrPrice : Option ℝ) : ℤ :=
  match emailPrice, ocrPrice with
  | none, _ => 50
  | some _, none => 50
  | some e, some o =>
    if e = 0 then 50
    else
      let difference := |e - o|
      let k : ℝ := 5
      let rel := difference / e
      let score := 100 * Real.exp (-k * rel)
      round (max 0 (min 100 score))

/-- Clamping as written in the specification: `clamp(x, lo, hi)`. -/
noncomputable def clampR (lo hi x : ℝ) : ℝ := max lo (min hi x)

/-- The exponential-decay score exactly as the specification words it:
`round(clamp(100 · e^(−5r), 0, 100))` with `r = |email − ocr| / email`. -/
noncomputable def specConfidence (e o : ℝ) : ℤ :=
  round (clampR 0 100 (100 * Real.exp (-5 * (|e - o| / e))))

/-! ## Delivery-time normalization

Source (comparison route):

```ts
function normalizeDeliveryToDays(deliveryString: string | null): number | null {
  if (!deliveryString) return null;
  const lower = deliveryString.toLowerCase();
  const daysMatch = lower.match(/(\d+)\s*day/);
  if (daysMatch) return parseInt(daysMatch[1]);
  const weeksMatch = lower.match(/(\d+)\s*week/);
  if (weeksMatch) return parseInt(weeksMatch[1]) * 7;
  const monthMatch = lower.match(/(\d+)\s*month/);
  if (monthMatch) return parseInt(monthMatch[1]) * 30;
  return null;
}
```

The regex `(\d+)\s*day` is embedded as a left-to-right scan.  At a candidate
start position the engine takes a maximal digit run (shrinking `\d+` can never
help: the character after a shortened run is a digit, which neither `\s` nor
`d` accepts), skips a maximal run of whitespace (shrinking `\s*` can never
help: the remaining character would be whitespace, which `d` rejects), and
then requires the literal unit to follow. -/

def toLowerJS (c : Char) : Char :=
  if 'A' ≤ c ∧ c ≤ 'Z' then Char.ofNat (c.toNat + 32) else c

/-- JavaScript's whitespace class (the ASCII part plus the Unicode space
separators it names). -/
def isWsJS (c : Char) : Bool :=
  c = ' ' || c = '\t' || c = '\n' || c = '\r' || c = '\x0b' || c = '\x0c' ||
  c.toNat = 160 || c.toNat = 5760 || (8192 ≤ c.toNat && c.toNat ≤ 8202) ||
  c.toNat = 8232 || c.toNat = 8233 || c.toNat = 8239 || c.toNat = 8287 ||
  c.toNat = 12288 || c.toNat = 65279

/-- Value of a capture of decimal digits, as `parseInt` computes it. -/
def digitsVal (ds : List Char) : ℕ :=
  ds.foldl (fun n c => 10 * n + (c.toNat - 48)) 0

/-- One regex engine run of the pattern "digits, optional whitespace, unit
literal": the scan tries each start position from the left; at a digit it
takes the maximal digit run, skips whitespace and tests for the unit. -/
def scanUnit (unit : List Char) : List Char → Option ℕ
  | [] => none
  | c :: cs =>
    if c.isDigit then
      if unit.isPrefixOf (((c :: cs).dropWhile Char.isDigit).dropWhile isWsJS) then
        some (digitsVal ((c :: cs).takeWhile Char.isDigit))
      else scanUnit unit cs
    else scanUnit unit cs

def normalizeDeliveryToDays (deliveryString : Option String) : Option ℕ :=
  match deliveryString with
  | none => none
  | some s =>
    let lower := s.toList.map toLowerJS
    match scanUnit ("day".toList) lower with
    | some n => some n
    | none =>
      match scanUnit ("week".toList) lower with
      | some n => some (n * 7)
      | none =>
        match scanUnit ("month".toList) lower with
        | some n => some (n * 30)
        | none => none

/-- Specification-side reading: the digits-whitespace-unit pattern matches at
position `i` of `cs`. -/
def unitMatchAt (unit cs : List Char) (i : ℕ) : Bool :=
  match cs.drop i with
  | [] => false
  | c :: rest =>
    c.isDigit &&
      unit.isPrefixOf (((c :: rest).dropWhile Char.isDigit).dropWhile isWsJS)

/-- Specification-side reading of the claim: the value of the first integer
in the phrase that is followed (after optional whitespace) by the unit
literal. -/
def firstUnitNum (unit cs : List Char) : Option ℕ :=
  (List.range cs.length).findSome? fun i =>
    if unitMatchAt unit cs i then
      some (digitsVal ((cs.drop i).takeWhile Char.isDigit))
    else none

/-! ## RFP-ID extraction (inbound-proposal webhook)

Source:

```ts
const UUID_V4_REGEX = /[0-9a-f]{8}-[0-9a-f]{4}-[0-9a-f]{4}-[0-9a-f]{4}-[0-9a-f]{12}/i;
function extractRFPandVendor(rawEmail: string, resendFrom: string) {
  const match = rawEmail.match(new RegExp(`RFP-ID:\\s*(${UUID_V4_REGEX.source})`, "i"));
  let rfpId = match ? match[1] : null;
  if (rfpId) { rfpId = rfpId.trim(); }
  const emailMatch = resendFrom.match(/<([^>]+)>/) || [null, resendFrom];
  const vendorEmail = emailMatch[1] || resendFrom;
  return { rfpId, vendorEmail: vendorEmail.trim() };
}
```

The `i` flag folds case over the whole pattern, so the marker is matched
case-insensitively and the hex classes accept `A`–`F` as well.  As with the
delivery regex, backtracking is vacuous: the counted hex classes are exact,
and whitespace is never a hex digit, so the whole pattern is a deterministic
prefix parse tried at each start position from the left. -/

def isHexDigitCI (c : Char) : Bool :=
  c.isDigit || ('a' ≤ c && c ≤ 'f') || ('A' ≤ c && c ≤ 'F')

/-- Take exactly `n` hex characters from the front. -/
def takeHex : ℕ → List Char → Option (List Char × List Char)
  | 0, cs => some ([], cs)
  | _ + 1, [] => none
  | n + 1, c :: cs =>
    if isHexDigitCI c then
      match takeHex n cs with
      | some (ds, rest) => some (c :: ds, rest)
      | none => none
    else none

def matchDash : List Char → Option (List Char)
  | '-' :: cs => some cs
  | _ => none

/-- Parse the 8-4-4-4-12 hex shape at the front; return the 36 matched
characters and the remainder. -/
def uuidFrom (cs : List Char) : Option (List Char × List Char) :=
  match takeHex 8 cs with
  | none => none
  | some (a, r1) =>
    match matchDash r1 with
    | none => none
    | some r1' =>
      match takeHex 4 r1' with
      | none => none
      | some (b, r2) =>
        match matchDash r2 with
        | none => none
        | some r2' =>
          match takeHex 4 r2' with
          | none => none
          | some (c3, r3) =>
            match matchDash r3 with
            | none => none
            | some r3' =>
              match takeHex 4 r3' with
              | none => none
              | some (d, r4) =>
                match matchDash r4 with
                | none => none
                | some r4' =>
                  match takeHex 12 r4' with
                  | none => none
                  | some (e, r5) =>
                    some (a ++ '-' :: b ++ '-' :: c3 ++ '-' :: d ++ '-' :: e, r5)

/-- Case-insensitive literal match; returns the remainder on success. -/
def matchCI : List Char → List Char → Option (List Char)
  | [], cs => some cs
  | _ :: _, [] => none
  | p :: ps, c :: cs => if toLowerJS c = toLowerJS p then matchCI ps cs else none

def rfpMarker : List Char := "rfp-id:".toList

/-- The whole webhook pattern tried at one position: marker, optional
whitespace, UUID shape; yields the capture group. -/
def rfpIdAt (cs : List Char) : Option (List Char) :=
  match matchCI rfpMarker cs with
  | none => none
  | some r =>
    match uuidFrom (r.dropWhile isWsJS) with
    | none => none
    | some (u, _) => some u

/-- Leftmost match of the webhook pattern over the whole body. -/
def extractRfpId : List Char → Option (List Char)
  | [] => none
  | c :: cs =>
    match rfpIdAt (c :: cs) with
    | some u => some u
    | none => extractRfpId cs

/-- JavaScript `String.prototype.trim`. -/
def trimJS (cs : List Char) : List Char :=
  ((cs.dropWhile isWsJS).reverse.dropWhile isWsJS).reverse

/-- Unanchored `UUID_V4_REGEX.test`: does the UUID shape occur anywhere? -/
def uuidTest : List Char → Bool
  | [] => false
  | c :: cs => (uuidFrom (c :: cs)).isSome || uuidTest cs

/-- The `rfpId` component of `extractRFPandVendor`. -/
def extractedRfpId (rawEmail : String) : Option String :=
  (extractRfpId rawEmail.toList).map (fun u => String.mk (trimJS u))

/-- Outcome of the webhook's correlation gate
`if (!rfpId || !UUID_V4_REGEX.test(rfpId)) return 400`:
`true` means the request passes on to the vendor lookup. -/
def webhookGate (rawEmail : String) : Bool :=
  match extractedRfpId rawEmail with
  | none => false
  | some r => uuidTest r.toList

/-- Leftmost match of the angle-bracket pattern of `extractRFPandVendor` at
one position: an opening bracket, one or more non-closing characters, a
closing bracket; yields the capture. -/
def angleAt (cs : List Char) : Option (List Char) :=
  match cs with
  | '<' :: rest =>
    let t := rest.takeWhile (fun c => c != '>')
    if t.isEmpty then none
    else
      match rest.drop t.length with
      | '>' :: _ => some t
      | _ => none
  | _ => none

def angleScan : List Char → Option (List Char)
  | [] => none
  | c :: cs =>
    match angleAt (c :: cs) with
    | some t => some t
    | none => angleScan cs

/-- The `vendorEmail` component of `extractRFPandVendor`: the bracketed
address when present, the whole header otherwise, trimmed. -/
def parseVendorEmail (resendFrom : String) : String :=
  match angleScan resendFrom.toList with
  | some t => String.mk (trimJS t)
  | none => String.mk (trimJS resendFrom.toList)

/-- Well-formed UUID shape (8-4-4-4-12 hex): what the regex named
`UUID_V4_REGEX` actually enforces. -/
def wellFormedUuid (u : List Char) : Bool :=
  match uuidFrom u with
  | some (_, []) => true
  | _ => false

/-- Specification-side definition, from the claim's words: a well-formed
version-4 UUID additionally fixes the version nibble to `4` and the variant
nibble to one of `8`, `9`, `a`, `b`. -/
def isV4Uuid (u : List Char) : Bool :=
  wellFormedUuid u && (u.getD 14 'x' = '4') &&
    (u.getD 19 'x' = '8' || u.getD 19 'x' = '9' ||
     u.getD 19 'x' = 'a' || u.getD 19 'x' = 'b' ||
     u.getD 19 'x' = 'A' || u.getD 19 'x' = 'B')

/-! ## Relational-state model

The four tables of the migration script.  `RFP.status` is one of the four
workflow strings; `RFPVendor.status` is `sent` or `responded`; `Vendor.email`
carries a unique index; `Proposal` carries a unique index on
`(rfpId, vendorId)` and cascading foreign keys.  Each handler below returns
the HTTP status it responds with together with the successor database state;
a thrown unique-constraint, foreign-key or record-not-found error is caught
by the handler's catch-all and surfaces as a 500 with the transaction rolled
back.  External sends (email, LLM) are taken to succeed: their failure paths
return early without touching further state. -/

inductive RStatus where
  | draft
  | sent
  | responded
  | completed
deriving DecidableEq, Repr

def RStatus.rank : RStatus → ℕ
  | .draft => 0
  | .sent => 1
  | .responded => 2
  | .completed => 3

inductive VStatus where
  | vsent
  | vresponded
deriving DecidableEq, Repr

structure VendorRow where
  vid : String
  email : String
deriving DecidableEq, Repr

structure DB where
  rfps : List (String × RStatus)
  vendors : List VendorRow
  rfpVendors : List (String × String × VStatus)
  proposals : List (String × String)
deriving DecidableEq, Repr

def DB.empty : DB := ⟨[], [], [], []⟩

def findStatus (l : List (String × RStatus)) (id : String) : Option RStatus :=
  (l.find? (fun p => p.1 == id)).map (fun p => p.2)

def setStatus (l : List (String × RStatus)) (rid : String) (st : RStatus) :
    List (String × RStatus) :=
  l.map (fun p => if p.1 == rid then (p.1, st) else p)

def lookupRfp (db : DB) (id : String) : Option RStatus := findStatus db.rfps id

def setRfpStatus (db : DB) (rid : String) (st : RStatus) : DB :=
  { db with rfps := setStatus db.rfps rid st }

def hasRV (l : List (String × String × VStatus)) (r v : String) : Bool :=
  l.any (fun t => t.1 == r && t.2.1 == v)

def setRV (l : List (String × String × VStatus)) (r v : String) (st : VStatus) :
    List (String × String × VStatus) :=
  l.map (fun t => if t.1 == r && t.2.1 == v then (t.1, t.2.1, st) else t)

def upsertRV (l : List (String × String × VStatus)) (r v : String) (st : VStatus) :
    List (String × String × VStatus) :=
  if hasRV l r v then setRV l r v st else (r, v, st) :: l

def findVendorByEmail (db : DB) (em : String) : Option VendorRow :=
  db.vendors.find? (fun v => v.email == em)

/-- RFP creation (`app/api/rfp/create/route.ts`): the LLM structures the
input, then a row is inserted with status `draft`; `newId` stands for the
database-generated id (a fresh one in practice — on a collision the insert
would throw and surface as 500). -/
def rfpCreate (newId : String) (db : DB) : ℕ × DB :=
  if db.rfps.any (fun p => p.1 == newId) then (500, db)
  else (200, { db with rfps := (newId, RStatus.draft) :: db.rfps })

/-- RFP dispatch (`app/api/rfp/send/route.ts`): validates input, loads the
RFP and the selected vendors, sends one email per vendor and upserts the
`RFPVendor` row to `sent`, then unconditionally sets the RFP status to
`sent`. -/
def sendRfp (rfpId : String) (vendorIds : List String) (db : DB) : ℕ × DB :=
  if rfpId = "" ∨ vendorIds = [] then (400, db)
  else
    match lookupRfp db rfpId with
    | none => (404, db)
    | some _ =>
      let vs := db.vendors.filter (fun v => vendorIds.contains v.vid)
      if vs.isEmpty then (404, db)
      else
        let db1 : DB := { db with
          rfpVendors :=
            vs.foldl (fun l v => upsertRV l rfpId v.vid VStatus.vsent) db.rfpVendors }
        (200, setRfpStatus db1 rfpId RStatus.sent)

/-- Inbound-proposal webhook (`app/api/inbound/proposal/route.ts`): checks
the sender header, extracts the RFP id with the regex gate, looks up the
vendor by sender address, then in one transaction creates the `Proposal` row
and flips the `RFPVendor` row to `responded` (a duplicate `(rfpId, vendorId)`
pair, a missing RFP or a missing `RFPVendor` row makes the transaction throw
and roll back), and finally updates the RFP status to `responded` guarded by
`status ≠ completed` (on a completed RFP that guarded update matches no row
and throws, after the transaction has already committed). -/
def inboundProposal (rawEmail fromHeader : String) (db : DB) : ℕ × DB :=
  let fromT := String.mk (trimJS fromHeader.toList)
  if fromT = "" then (400, db)
  else
    let vendorEmail := parseVendorEmail fromT
    match extractedRfpId rawEmail with
    | none => (400, db)
    | some rfpId =>
      if !(uuidTest rfpId.toList) then (400, db)
      else
        match findVendorByEmail db vendorEmail with
        | none => (404, db)
        | some vendor =>
          if db.proposals.any (fun p => p.1 == rfpId && p.2 == vendor.vid) then
            (500, db)
          else if (lookupRfp db rfpId).isNone then (500, db)
          else if !(hasRV db.rfpVendors rfpId vendor.vid) then (500, db)
          else
            let db1 : DB := { db with
              proposals := (rfpId, vendor.vid) :: db.proposals,
              rfpVendors := setRV db.rfpVendors rfpId vendor.vid VStatus.vresponded }
            match lookupRfp db1 rfpId with
            | some RStatus.completed => (500, db1)
            | some _ => (201, setRfpStatus db1 rfpId RStatus.responded)
            | none => (500, db1)

/-- Comparison endpoint (`app/api/rfp/[rfpId]/compare/route.ts`): loads the
RFP with its proposals, 404s when the RFP is missing or has no proposals,
otherwise runs the LLM ranking and marks the RFP `completed`. -/
def compareRfp (rfpId : String) (db : DB) : ℕ × DB :=
  match lookupRfp db rfpId with
  | none => (404, db)
  | some _ =>
    if (db.proposals.filter (fun p => p.1 == rfpId)).isEmpty then (404, db)
    else (200, setRfpStatus db rfpId RStatus.completed)

/-- Vendor creation (`app/api/vendors/route.ts` POST): 400 on missing name or
email, 409 when a vendor with the email already exists, otherwise insert
(`newId` stands for the database-generated id; `company` and `phone` are
stored but play no role in any claim). -/
def vendorsPost (newId name email : String) (db : DB) : ℕ × DB :=
  if name = "" ∨ email = "" then (400, db)
  else
    match db.vendors.find? (fun v => v.email == email) with
    | some _ => (409, db)
    | none => (201, { db with vendors := ⟨newId, email⟩ :: db.vendors })

/-- Vendor deletion (`app/api/vendors/[vendorId]/route.ts` DELETE): the
cascade clauses of the migration remove the vendor's `RFPVendor` and
`Proposal` rows; deleting a missing vendor throws and surfaces as 500. -/
def vendorDelete (vid : String) (db : DB) : ℕ × DB :=
  if vid = "" then (400, db)
  else if db.vendors.any (fun v => v.vid == vid) then
    (200, { db with
      vendors := db.vendors.filter (fun v => !(v.vid == vid)),
      rfpVendors := db.rfpVendors.filter (fun t => !(t.2.1 == vid)),
      proposals := db.proposals.filter (fun p => !(p.2 == vid)) })
  else (500, db)

/-- One request-handler execution, with its inputs. -/
inductive Step where
  | create (newId : String)
  | send (rfpId : String) (vendorIds : List String)
  | inbound (rawEmail fromHeader : String)
  | compare (rfpId : String)
  | vendorNew (newId name email : String)
  | vendorDel (vid : String)

def applyStep (s : Step) (db : DB) : DB :=
  match s with
  | .create id => (rfpCreate id db).2
  | .send r vs => (sendRfp r vs db).2
  | .inbound raw frm => (inboundProposal raw frm db).2
  | .compare r => (compareRfp r db).2
  | .vendorNew id n e => (vendorsPost id n e db).2
  | .vendorDel v => (vendorDelete v db).2

def runStepsFrom (db : DB) : List Step → DB
  | [] => db
  | s :: rest => runStepsFrom (applyStep s db) rest

/-- Database state reached by a handler sequence from the migrated (empty)
schema. -/
def runSteps (steps : List Step) : DB := runStepsFrom DB.empty steps

/-- The status of RFP `id` observed before each step and after the last. -/
def statusTrace (id : String) (db : DB) : List Step → List (Option RStatus)
  | [] => [lookupRfp db id]
  | s :: rest => lookupRfp db id :: statusTrace id (applyStep s db) rest

def rankO : Option RStatus → ℕ
  | none => 0
  | some st => st.rank

/-- A step is dispatch-safe for RFP `id` when it is not a send targeting `id`
while the status is already past `sent`. -/
def sendOkAt (id : String) (db : DB) : Step → Bool
  | .send rid _ => !(rid == id) || decide (rankO (lookupRfp db id) ≤ 1)
  | _ => true

def sendSafe (id : String) (db : DB) : List Step → Bool
  | [] => true
  | s :: rest => sendOkAt id db s && sendSafe id (applyStep s db) rest

/-! ## Attachment enrichment

The pure data transformation of the `process-attachments` POST handler.  The
per-attachment OCR call, the LLM structuring call, and the numeric coercion
`Number(...)` together with `calculatePriceConfidence` (whose value is
analysed separately over the reals) are oracle parameters; everything else —
the no-attachment early return, the per-attachment error substitution, the
merge by object spread, and the rawEmail rewrite — is translated from the
handler. -/

inductive JVal where
  | null
  | num (q : ℚ)
  | str (s : String)
  | jbool (b : Bool)
  | arr (items : List JVal)
  | obj (fields : List (String × JVal))

/-- Lookup of a field of a JSON object. -/
def getKey (o : List (String × JVal)) (k : String) : Option JVal :=
  (o.find? (fun p => p.1 == k)).map (fun p => p.2)

/-- Semantics of adding `k: v` after an object spread: `k` now maps to `v`,
every other key is unchanged. -/
def setKey (o : List (String × JVal)) (k : String) (v : JVal) :
    List (String × JVal) :=
  o.filter (fun p => !(p.1 == k)) ++ [(k, v)]

/-- JavaScript truthiness of a JSON value. -/
def jTruthy : JVal → Bool
  | .null => false
  | .num q => !(q == 0)
  | .str s => !(s == "")
  | .jbool b => b
  | .arr _ => true
  | .obj _ => true

structure Attachment where
  filename : String
  url : String
  mimeType : String

/-- The `OCRExtractionZod` schema. -/
structure OCRExtraction where
  detectedPricing : JVal
  totalAmount : Option ℚ
  deliveryTimeline : Option String
  warrantyInfo : Option String
  paymentTerms : Option String
  additionalNotes : String

structure ProposalRow where
  pricing : Option (List (String × JVal))
  terms : Option (List (String × JVal))
  rawEmail : String
  attachments : Option (List Attachment)

/-- Handler outcome: HTTP status, the stored row afterwards, and how many
OCR calls, LLM structuring calls and database writes the request performed. -/
structure POutcome where
  status : ℕ
  row : Option ProposalRow
  ocrCalls : ℕ
  llmCalls : ℕ
  dbWrites : ℕ

def optNum : Option ℚ → JVal
  | none => .null
  | some q => .num q

def optStr : Option String → JVal
  | none => .null
  | some s => .str s

/-- `{ ...currentPricing, ocrDetectedItems, ocrTotalAmount, ocrConfidenceScore }`. -/
def mergePricing (cur : List (String × JVal)) (ex : OCRExtraction)
    (ocrTotal : Option ℚ) (conf : ℚ) : List (String × JVal) :=
  setKey (setKey (setKey cur "ocrDetectedItems" ex.detectedPricing)
    "ocrTotalAmount" (optNum ocrTotal)) "ocrConfidenceScore" (JVal.num conf)

/-- `{ ...currentTerms, ocrDeliveryTimeline, ocrWarrantyInfo, ocrPaymentTerms, ocrAdditionalNotes }`. -/
def mergeTerms (cur : List (String × JVal)) (ex : OCRExtraction) :
    List (String × JVal) :=
  setKey (setKey (setKey (setKey cur
    "ocrDeliveryTimeline" (optStr ex.deliveryTimeline))
    "ocrWarrantyInfo" (optStr ex.warrantyInfo))
    "ocrPaymentTerms" (optStr ex.paymentTerms))
    "ocrAdditionalNotes" (JVal.str ex.additionalNotes)

/-- `currentPricing.totalPrice ? Number(currentPricing.totalPrice) : null`. -/
def emailTotalOf (cur : List (String × JVal)) (numberOf : JVal → ℚ) : Option ℚ :=
  match getKey cur "totalPrice" with
  | some v => if jTruthy v then some (numberOf v) else none
  | none => none

/-- `structuredOCRData.totalAmount ? Number(structuredOCRData.totalAmount) : null`
(note a total of `0` is falsy and becomes `null`). -/
def ocrTotalOf (ex : OCRExtraction) : Option ℚ :=
  match ex.totalAmount with
  | none => none
  | some q => if q = 0 then none else some q

/-- The combined OCR text the handler builds from the per-attachment results
(with the per-attachment error substitution of step 2). -/
def combinedOCRText (ocr : Attachment → Except String String)
    (atts : List Attachment) : String :=
  let ocrResults := atts.map (fun a =>
    (a.filename,
      match ocr a with
      | Except.ok t => t
      | Except.error m => "Error processing file: " ++ m))
  String.intercalate "\n\n"
    (ocrResults.map (fun r => "--- File: " ++ r.1 ++ " ---\n" ++ r.2))

/-- The row the handler writes back in step 6. -/
def enrichedRow (ocr : Attachment → Except String String)
    (llm : String → OCRExtraction) (numberOf : JVal → ℚ)
    (confidence : Option ℚ → Option ℚ → ℚ)
    (p : ProposalRow) (atts : List Attachment) : ProposalRow :=
  let combined := combinedOCRText ocr atts
  let ex := llm combined
  let currentPricing := p.pricing.getD []
  let currentTerms := p.terms.getD []
  let ocrTotal := ocrTotalOf ex
  let conf := confidence (emailTotalOf currentPricing numberOf) ocrTotal
  let originalEmail := (p.rawEmail.splitOn "--- OCR EXTRACTED DATA ---").headD ""
  let originalT := String.mk (trimJS originalEmail.toList)
  { p with
    pricing := some (mergePricing currentPricing ex ocrTotal conf),
    terms := some (mergeTerms currentTerms ex),
    rawEmail := originalT ++ "\n\n--- OCR EXTRACTED DATA ---\n" ++ combined }

def processAttachments (ocr : Attachment → Except String String)
    (llm : String → OCRExtraction) (numberOf : JVal → ℚ)
    (confidence : Option ℚ → Option ℚ → ℚ)
    (proposalId : String) (row : Option ProposalRow) : POutcome :=
  if proposalId = "" then ⟨400, row, 0, 0, 0⟩
  else
    match row with
    | none => ⟨404, none, 0, 0, 0⟩
    | some p =>
      match p.attachments with
      | none => ⟨200, some p, 0, 0, 0⟩
      | some [] => ⟨200, some p, 0, 0, 0⟩
      | some (a0 :: rest) =>
        ⟨200, some (enrichedRow ocr llm numberOf confidence p (a0 :: rest)),
          (a0 :: rest).length, 1, 1⟩

/-! ## Retry wrapper

```ts
async function retryOperation<T>(operation, maxRetries = 3) {
  for (let i = 0; i < maxRetries; i++) {
    try { return await operation(); }
    catch (error) {
      if (i === maxRetries - 1) { throw error; }
      await new Promise(r => setTimeout(r, 500));
    }
  }
  throw new Error("Retry limit reached.");
}
```

The operation is modelled as a map from attempt index to outcome; the pair
returned is the overall outcome (the `Option` error distinguishes the final
`Retry limit reached` throw, reachable only with a zero bound) together with
the number of invocations performed.  The loop index `i` equals
`maxRetries − fuel`, so the `i === maxRetries - 1` test is `fuel = 1`. -/

def retryAux {E A : Type} (op : ℕ → Except E A) :
    ℕ → ℕ → Except (Option E) A × ℕ
  | 0, k => (Except.error none, k)
  | fuel + 1, k =>
    match op k with
    | Except.ok a => (Except.ok a, k + 1)
    | Except.error e =>
      if fuel = 0 then (Except.error (some e), k + 1)
      else retryAux op fuel (k + 1)

def retryOperation {E A : Type} (op : ℕ → Except E A) (maxRetries : ℕ) :
    Except (Option E) A × ℕ :=
  retryAux op maxRetries 0

/-- The bound the PDF branch of `performOCR` passes:
`retryOperation(async () => { ... extractText ... }, 2)`. -/
def pdfExtractionRetries : ℕ := 2

/-- The PDF text-extraction call as wrapped at its only call site. -/
def performOCRPdf {A : Type} (extract : ℕ → Except String A) :
    Except (Option String) A × ℕ :=
  retryOperation extract pdfExtractionRetries

/-! ## Theorems -/

theorem exp_five_gt_eleven : (11 : ℝ) < Real.exp 5 := by
  have h1 : (2.7182818283 : ℝ) < Real.exp 1 := Real.exp_one_gt_d9
  have h2 : (2.7 : ℝ) < Real.exp 1 := by linarith
  have h5 : Real.exp 5 = Real.exp 1 ^ 5 := by
    rw [← Real.exp_nat_mul]
    norm_num
  have h3 : (2.7 : ℝ) ^ 5 < Real.exp 1 ^ 5 :=
    pow_lt_pow_left₀ h2 (by norm_num) (by norm_num)
  rw [h5]
  nlinarith [h3]

/-- C1: `calculatePriceConfidence` returns 50 when either input is absent or
the email price is 0; otherwise it returns
`round(clamp(100 · e^(−5r), 0, 100))` with `r = |email − ocr| / email`.
In particular `confidence(100, 100) = 100`, `confidence(100, null) = 50`, and
`confidence(100, 200) < 10`. -/
theorem C1_price_confidence :
    (∀ o, calculatePriceConfidence none o = 50) ∧
    (∀ e, calculatePriceConfidence e none = 50) ∧
    (∀ o, calculatePriceConfidence (some 0) o = 50) ∧
    (∀ e o, calculatePriceConfidence (some e) (some o) =
      if e = 0 then 50 else specConfidence e o) ∧
    calculatePriceConfidence (some 100) (some 100) = 100 ∧
    calculatePriceConfidence (some 100) none = 50 ∧
    calculatePriceConfidence (some 100) (some 200) < 10 := by
  have hgen : ∀ e o : ℝ, calculatePriceConfidence (some e) (some o) =
      if e = 0 then 50 else specConfidence e o := by
    intro e o
    by_cases he : e = 0 <;>
      simp [calculatePriceConfidence, specConfidence, clampR, he]
  refine ⟨?_, ?_, ?_, hgen, ?_, ?_, ?_⟩
  · intro o; rfl
  · intro e; cases e <;> rfl
  · intro o; cases o with
    | none => rfl
    | some x => simp [calculatePriceConfidence]
  · rw [hgen]
    have : |(100 : ℝ) - 100| / 100 = 0 := by norm_num
    simp [specConfidence, clampR, this, Real.exp_zero]
  · rfl
  · rw [hgen, if_neg (by norm_num : ¬((100 : ℝ) = 0))]
    have hratio : |(100 : ℝ) - 200| / 100 = 1 := by
      rw [abs_of_nonpos (by norm_num)]
      norm_num
    have hexp : Real.exp (-5) < 1 / 11 := by
      have := exp_five_gt_eleven
      rw [Real.exp_neg]
      rw [inv_lt_comm₀ (by positivity) (by norm_num)]
      linarith
    have hpos : (0 : ℝ) < Real.exp (-5) := Real.exp_pos _
    unfold specConfidence clampR
    rw [hratio]
    simp only [mul_one]
    have hmin : min (100 : ℝ) (100 * Real.exp (-5)) = 100 * Real.exp (-5) := by
      apply min_eq_right
      linarith
    have hmax : max (0 : ℝ) (100 * Real.exp (-5)) = 100 * Real.exp (-5) := by
      apply max_eq_right
      positivity
    rw [hmin, hmax, round_eq]
    apply Int.floor_lt.mpr
    push_cast
    linarith

theorem unitMatchAt_cons_zero (unit : List Char) (c : Char) (cs : List Char) :
    unitMatchAt unit (c :: cs) 0 =
      (c.isDigit &&
        unit.isPrefixOf (((c :: cs).dropWhile Char.isDigit).dropWhile isWsJS)) :=
  rfl

theorem scanUnit_cons (unit : List Char) (c : Char) (cs : List Char) :
    scanUnit unit (c :: cs) =
      if c.isDigit &&
          unit.isPrefixOf (((c :: cs).dropWhile Char.isDigit).dropWhile isWsJS) then
        some (digitsVal ((c :: cs).takeWhile Char.isDigit))
      else scanUnit unit cs := by
  cases hd : c.isDigit with
  | false =>
    simp only [scanUnit]
    rw [hd]
    simp
  | true =>
    cases hp :
        unit.isPrefixOf (((c :: cs).dropWhile Char.isDigit).dropWhile isWsJS) with
    | false =>
      simp only [scanUnit]
      rw [hd, hp]
      simp
    | true =>
      simp only [scanUnit]
      rw [hd, hp]
      simp

theorem scanUnit_eq_firstUnitNum (unit cs : List Char) :
    scanUnit unit cs = firstUnitNum unit cs := by
  induction cs with
  | nil => rfl
  | cons c cs ih =>
    have hrange : List.range ((c :: cs).length) =
        0 :: (List.range cs.length).map Nat.succ := by
      rw [List.length_cons, List.range_succ_eq_map]
    have hmap : List.findSome? (fun i =>
          if unitMatchAt unit (c :: cs) i then
            some (digitsVal (((c :: cs).drop i).takeWhile Char.isDigit))
          else none) ((List.range cs.length).map Nat.succ) =
        firstUnitNum unit cs := by
      rw [List.findSome?_map]
      rfl
    rw [scanUnit_cons]
    unfold firstUnitNum
    rw [hrange]
    cases hb : (c.isDigit &&
        unit.isPrefixOf (((c :: cs).dropWhile Char.isDigit).dropWhile isWsJS)) with
    | true =>
      rw [if_pos rfl]
      have h0 : unitMatchAt unit (c :: cs) 0 = true := by
        rw [unitMatchAt_cons_zero]; exact hb
      rw [List.findSome?_cons, h0, if_pos rfl]
      rfl
    | false =>
      rw [if_neg Bool.false_ne_true]
      have h0 : unitMatchAt unit (c :: cs) 0 = false := by
        rw [unitMatchAt_cons_zero]; exact hb
      rw [List.findSome?_cons, h0, if_neg Bool.false_ne_true]
      exact ih.trans hmap.symm

/-- C2: `normalizeDeliveryToDays` returns the first integer followed by
"day" as that many days, else the first integer followed by "week" times 7,
else the first integer followed by "month" times 30, and `null` when no
integer-unit match exists; units are never summed.  Examples: "14 days" → 14,
"2 weeks" → 14, "1 month" → 30, "soon" → null, "1 week 3 days" → 3. -/
theorem C2_delivery_normalization :
    (normalizeDeliveryToDays none = none) ∧
    (∀ s : String,
      normalizeDeliveryToDays (some s) =
        let lower := s.toList.map toLowerJS
        match firstUnitNum ("day".toList) lower with
        | some n => some n
        | none =>
          match firstUnitNum ("week".toList) lower with
          | some n => some (n * 7)
          | none =>
            match firstUnitNum ("month".toList) lower with
            | some n => some (n * 30)
            | none => none) ∧
    normalizeDeliveryToDays (some "14 days") = some 14 ∧
    normalizeDeliveryToDays (some "2 weeks") = some 14 ∧
    normalizeDeliveryToDays (some "1 month") = some 30 ∧
    normalizeDeliveryToDays (some "soon") = none ∧
    normalizeDeliveryToDays (some "1 week 3 days") = some 3 := by
  refine ⟨rfl, ?_, by decide, by decide, by decide, by decide, by decide⟩
  intro s
  simp only [normalizeDeliveryToDays, scanUnit_eq_firstUnitNum]

/-- C6: comparing an existing RFP that has no stored proposals returns 404
and leaves the database — in particular the RFP's status — unchanged. -/
theorem C6_compare_no_proposals :
    ∀ (db : DB) (rfpId : String) (st : RStatus),
      lookupRfp db rfpId = some st →
      db.proposals.filter (fun p => p.1 == rfpId) = [] →
      compareRfp rfpId db = (404, db) := by
  intro db rfpId st hst hprop
  unfold compareRfp
  rw [hst, hprop]
  rfl

theorem C6_witness :
    compareRfp "r" ⟨[("r", RStatus.sent)], [], [], [("q", "v")]⟩ =
      (404, ⟨[("r", RStatus.sent)], [], [], [("q", "v")]⟩) :=
  C6_compare_no_proposals _ "r" RStatus.sent (by decide) (by decide)

/-- C5: a vendor-creation request naming an email that an existing vendor
already has yields 409 and leaves the store unchanged, and the handler
preserves distinctness of stored vendor emails (the invariant the
`Vendor_email_key` unique index enforces). -/
theorem C5_vendor_email_unique :
    (∀ (db : DB) (newId name email : String),
      name ≠ "" → email ≠ "" →
      (∃ v ∈ db.vendors, v.email = email) →
      vendorsPost newId name email db = (409, db)) ∧
    (∀ (db : DB) (newId name email : String),
      (db.vendors.map (fun v => v.email)).Nodup →
      (((vendorsPost newId name email db).2).vendors.map (fun v => v.email)).Nodup) := by
  constructor
  · intro db newId name email hn he hex
    obtain ⟨v, hv, hve⟩ := hex
    unfold vendorsPost
    rw [if_neg (by simp [hn, he])]
    cases hf : db.vendors.find? (fun w => w.email == email) with
    | some w => rfl
    | none =>
      exfalso
      have hnone := List.find?_eq_none.mp hf v hv
      simp [hve] at hnone
  · intro db newId name email hnd
    unfold vendorsPost
    split
    · exact hnd
    · split
      · exact hnd
      · rename_i hf
        refine List.nodup_cons.mpr ⟨?_, hnd⟩
        intro hmem
        obtain ⟨v, hv, hve⟩ := List.mem_map.mp hmem
        have hnone := List.find?_eq_none.mp hf v hv
        simp [hve] at hnone

theorem C5_witness :
    vendorsPost "v2" "Acme" "dup@x.com"
        ⟨[], [⟨"v1", "dup@x.com"⟩], [], []⟩ =
      (409, ⟨[], [⟨"v1", "dup@x.com"⟩], [], []⟩) :=
  C5_vendor_email_unique.1 _ "v2" "Acme" "dup@x.com" (by decide) (by decide)
    ⟨⟨"v1", "dup@x.com"⟩, by simp, rfl⟩

/-- C10: calling the attachment-processing handler on an existing proposal
whose attachments field is null or an empty list answers 200 having made no
OCR call, no LLM call and no database write, and the stored row is
unchanged. -/
theorem C10_no_attachments_noop :
    ∀ (ocr : Attachment → Except String String) (llm : String → OCRExtraction)
      (numberOf : JVal → ℚ) (confidence : Option ℚ → Option ℚ → ℚ)
      (proposalId : String) (p : ProposalRow),
      proposalId ≠ "" →
      (p.attachments = none ∨ p.attachments = some []) →
      processAttachments ocr llm numberOf confidence proposalId (some p) =
        ⟨200, some p, 0, 0, 0⟩ := by
  intro ocr llm numberOf confidence proposalId p hpid hatt
  obtain ⟨pr, tm, re, att⟩ := p
  rcases hatt with h | h <;>
  · have h' : att = _ := h
    subst h'
    unfold processAttachments
    rw [if_neg hpid]

theorem C10_witness :
    processAttachments (fun _ => Except.error "none") (fun _ => ⟨JVal.null, none, none, none, none, ""⟩)
        (fun _ => 0) (fun _ _ => 0) "p1"
        (some ⟨some [("totalPrice", JVal.num 5)], none, "hello", none⟩) =
      ⟨200, some ⟨some [("totalPrice", JVal.num 5)], none, "hello", none⟩, 0, 0, 0⟩ :=
  C10_no_attachments_noop _ _ _ _ "p1" _ (by decide) (Or.inl rfl)

theorem retryAux_count_le {E A : Type} (op : ℕ → Except E A) :
    ∀ (fuel k : ℕ), (retryAux op fuel k).2 ≤ k + fuel := by
  intro fuel
  induction fuel with
  | zero => intro k; simp [retryAux]
  | succ f ih =>
    intro k
    simp only [retryAux]
    split
    · simp
    · split
      · simp
      · calc (retryAux op f (k + 1)).2 ≤ (k + 1) + f := ih (k + 1)
          _ ≤ k + (f + 1) := by omega

theorem retryAux_success {E A : Type} (op : ℕ → Except E A) :
    ∀ (fuel k j : ℕ) (a : A),
      j < fuel → (∀ m, m < j → ∃ e, op (k + m) = Except.error e) →
      op (k + j) = Except.ok a →
      retryAux op fuel k = (Except.ok a, k + j + 1) := by
  intro fuel
  induction fuel with
  | zero => intro k j a hj; exact absurd hj (by omega)
  | succ f ih =>
    intro k j a hj herr hok
    cases j with
    | zero =>
      rw [Nat.add_zero] at hok
      simp [retryAux, hok]
    | succ j' =>
      obtain ⟨e, he⟩ := herr 0 (Nat.succ_pos j')
      rw [Nat.add_zero] at he
      simp only [retryAux, he]
      have hf : ¬ f = 0 := by omega
      rw [if_neg hf]
      have herr' : ∀ m, m < j' → ∃ e, op (k + 1 + m) = Except.error e := by
        intro m hm
        obtain ⟨e', he'⟩ := herr (m + 1) (by omega)
        exact ⟨e', by rw [show k + 1 + m = k + (m + 1) from by omega]; exact he'⟩
      have hok' : op (k + 1 + j') = Except.ok a := by
        rw [show k + 1 + j' = k + (j' + 1) from by omega]
        exact hok
      rw [ih (k + 1) j' a (by omega) herr' hok']
      rw [show k + 1 + j' + 1 = k + (j' + 1) + 1 from by omega]

theorem retryAux_allfail {E A : Type} (op : ℕ → Except E A) (es : ℕ → E) :
    ∀ (fuel k : ℕ), 1 ≤ fuel →
      (∀ m, m < fuel → op (k + m) = Except.error (es (k + m))) →
      retryAux op fuel k = (Except.error (some (es (k + fuel - 1))), k + fuel) := by
  intro fuel
  induction fuel with
  | zero => intro k h; exact absurd h (by omega)
  | succ f ih =>
    intro k _ herr
    have h0 := herr 0 (Nat.succ_pos f)
    rw [Nat.add_zero] at h0
    simp only [retryAux, h0]
    by_cases hf : f = 0
    · subst hf
      rw [if_pos rfl]
      simp
    · rw [if_neg hf]
      have herr' : ∀ m, m < f → op (k + 1 + m) = Except.error (es (k + 1 + m)) := by
        intro m hm
        have h := herr (m + 1) (by omega)
        rw [show k + (m + 1) = k + 1 + m from by omega] at h
        exact h
      rw [ih (k + 1) (by omega) herr']
      rw [show k + 1 + f - 1 = k + (f + 1) - 1 from by omega,
        show k + 1 + f = k + (f + 1) from by omega]

/-- C9: `retryOperation` with bound `n` invokes the operation at most `n`
times, returns the first successful attempt's value unchanged, and when all
`n ≥ 1` attempts fail it propagates the final attempt's error; the PDF
text-extraction call site fixes the bound to 2, inside the 2-to-3 range the
claim states. -/
theorem C9_retry_operation :
    (∀ (E A : Type) (op : ℕ → Except E A) (n : ℕ), (retryOperation op n).2 ≤ n) ∧
    (∀ (E A : Type) (op : ℕ → Except E A) (n j : ℕ) (a : A),
      j < n → (∀ m, m < j → ∃ e, op m = Except.error e) → op j = Except.ok a →
      retryOperation op n = (Except.ok a, j + 1)) ∧
    (∀ (E A : Type) (op : ℕ → Except E A) (n : ℕ) (es : ℕ → E),
      1 ≤ n → (∀ m, m < n → op m = Except.error (es m)) →
      retryOperation op n = (Except.error (some (es (n - 1))), n)) ∧
    pdfExtractionRetries = 2 ∧ 2 ≤ pdfExtractionRetries ∧ pdfExtractionRetries ≤ 3 ∧
    (∀ (A : Type) (extract : ℕ → Except String A),
      performOCRPdf extract = retryOperation extract pdfExtractionRetries) := by
  refine ⟨?_, ?_, ?_, rfl, by norm_num [pdfExtractionRetries],
    by norm_num [pdfExtractionRetries], fun A e => rfl⟩
  · intro E A op n
    have h := retryAux_count_le op n 0
    simpa [retryOperation] using h
  · intro E A op n j a hj herr hok
    have h := retryAux_success op n 0 j a hj (by simpa using herr) (by simpa using hok)
    simpa [retryOperation] using h
  · intro E A op n es h1 herr
    have h := retryAux_allfail op es n 0 h1 (by simpa using herr)
    simpa [retryOperation] using h

theorem C9_witness :
    retryOperation (fun k => if k = 1 then Except.ok 42 else Except.error "boom") 3 =
      (Except.ok 42, 2) :=
  C9_retry_operation.2.1 String ℕ _ 3 1 42 (by omega)
    (fun m hm => ⟨"boom", by
      have hm0 : m = 0 := by omega
      subst hm0
      rfl⟩)
    rfl

theorem find?_filter_keep {α : Type} (q r : α → Bool) (l : List α)
    (h : ∀ x, q x = true → r x = true) :
    (l.filter r).find? q = l.find? q := by
  induction l with
  | nil => rfl
  | cons x xs ih =>
    by_cases hq : q x = true
    · have hr := h x hq
      rw [List.filter_cons_of_pos hr, List.find?_cons_of_pos _ hq,
        List.find?_cons_of_pos _ hq]
    · have hq' : q x = false := by
        cases hqx : q x
        · rfl
        · exact absurd hqx hq
      cases hr : r x with
      | false =>
        rw [List.filter_cons_of_neg (by simp [hr]),
          List.find?_cons_of_neg _ (by simp [hq'])]
        exact ih
      | true =>
        rw [List.filter_cons_of_pos hr, List.find?_cons_of_neg _ (by simp [hq']),
          List.find?_cons_of_neg _ (by simp [hq'])]
        exact ih

theorem getKey_setKey (o : List (String × JVal)) (k : String) (v : JVal) (k' : String) :
    getKey (setKey o k v) k' = if k' = k then some v else getKey o k' := by
  unfold getKey setKey
  rw [List.find?_append]
  by_cases hk : k' = k
  · subst hk
    have hfnone : (o.filter (fun p => !(p.1 == k'))).find? (fun p => p.1 == k') = none := by
      apply List.find?_eq_none.mpr
      intro x hx
      have hmem := List.of_mem_filter hx
      simp at hmem ⊢
      exact hmem
    rw [hfnone, if_pos rfl]
    simp [List.find?]
  · rw [if_neg hk]
    have h2 : (([(k, v)] : List (String × JVal)).find? (fun p => p.1 == k')) = none := by
      apply List.find?_eq_none.mpr
      intro x hx
      rw [List.mem_singleton] at hx
      subst hx
      simp only [beq_iff_eq]
      exact fun h => hk (Eq.symm h)
    rw [h2, Option.or_none]
    rw [find?_filter_keep]
    intro x hx
    simp only [beq_iff_eq] at hx
    simp only [hx, Bool.not_eq_eq_eq_not, Bool.not_true, beq_eq_false_iff_ne]
    exact fun h => hk h

theorem mergePricing_frame (cur : List (String × JVal)) (ex : OCRExtraction)
    (ocrTotal : Option ℚ) (conf : ℚ) (key : String)
    (h1 : key ≠ "ocrDetectedItems") (h2 : key ≠ "ocrTotalAmount")
    (h3 : key ≠ "ocrConfidenceScore") :
    getKey (mergePricing cur ex ocrTotal conf) key = getKey cur key := by
  unfold mergePricing
  rw [getKey_setKey, if_neg h3, getKey_setKey, if_neg h2, getKey_setKey, if_neg h1]

theorem mergeTerms_frame (cur : List (String × JVal)) (ex : OCRExtraction)
    (key : String)
    (h1 : key ≠ "ocrDeliveryTimeline") (h2 : key ≠ "ocrWarrantyInfo")
    (h3 : key ≠ "ocrPaymentTerms") (h4 : key ≠ "ocrAdditionalNotes") :
    getKey (mergeTerms cur ex) key = getKey cur key := by
  unfold mergeTerms
  rw [getKey_setKey, if_neg h4, getKey_setKey, if_neg h3, getKey_setKey, if_neg h2,
    getKey_setKey, if_neg h1]

/-- C8: the OCR merge only adds or overwrites the OCR-prefixed fields — the
three in pricing and the four in terms — and every other (email-derived)
field of the stored pricing and terms JSON keeps its value; the enrichment
handler stores exactly these merged objects. -/
theorem C8_ocr_merge_frame :
    (∀ (cur : List (String × JVal)) (ex : OCRExtraction) (ocrTotal : Option ℚ)
        (conf : ℚ) (key : String),
      key ≠ "ocrDetectedItems" → key ≠ "ocrTotalAmount" →
      key ≠ "ocrConfidenceScore" →
      getKey (mergePricing cur ex ocrTotal conf) key = getKey cur key) ∧
    (∀ (cur : List (String × JVal)) (ex : OCRExtraction) (key : String),
      key ≠ "ocrDeliveryTimeline" → key ≠ "ocrWarrantyInfo" →
      key ≠ "ocrPaymentTerms" → key ≠ "ocrAdditionalNotes" →
      getKey (mergeTerms cur ex) key = getKey cur key) ∧
    (∀ (ocr : Attachment → Except String String) (llm : String → OCRExtraction)
        (numberOf : JVal → ℚ) (confidence : Option ℚ → Option ℚ → ℚ)
        (proposalId : String) (p : ProposalRow) (a0 : Attachment)
        (rest : List Attachment),
      proposalId ≠ "" → p.attachments = some (a0 :: rest) →
      ∃ r : ProposalRow,
        (processAttachments ocr llm numberOf confidence proposalId (some p)).row =
          some r ∧
        (∃ ex ocrTotal conf,
          r.pricing = some (mergePricing (p.pricing.getD []) ex ocrTotal conf) ∧
          r.terms = some (mergeTerms (p.terms.getD []) ex)) ∧
        (∀ key, key ≠ "ocrDetectedItems" → key ≠ "ocrTotalAmount" →
          key ≠ "ocrConfidenceScore" →
          getKey (r.pricing.getD []) key = getKey (p.pricing.getD []) key) ∧
        (∀ key, key ≠ "ocrDeliveryTimeline" → key ≠ "ocrWarrantyInfo" →
          key ≠ "ocrPaymentTerms" → key ≠ "ocrAdditionalNotes" →
          getKey (r.terms.getD []) key = getKey (p.terms.getD []) key)) := by
  refine ⟨mergePricing_frame, mergeTerms_frame, ?_⟩
  intro ocr llm numberOf confidence proposalId p a0 rest hpid hatt
  obtain ⟨pr, tm, re, att⟩ := p
  have h' : att = some (a0 :: rest) := hatt
  subst h'
  have hrow : (processAttachments ocr llm numberOf confidence proposalId
      (some ⟨pr, tm, re, some (a0 :: rest)⟩)).row =
      some (enrichedRow ocr llm numberOf confidence
        ⟨pr, tm, re, some (a0 :: rest)⟩ (a0 :: rest)) := by
    unfold processAttachments
    rw [if_neg hpid]
  refine ⟨_, hrow, ⟨_, _, _, rfl, rfl⟩, ?_, ?_⟩
  · intro key h1 h2 h3
    exact mergePricing_frame _ _ _ _ key h1 h2 h3
  · intro key h1 h2 h3 h4
    exact mergeTerms_frame _ _ key h1 h2 h3 h4

theorem C8_witness :
    ∃ r : ProposalRow,
      (processAttachments (fun _ => Except.ok "text")
          (fun _ => ⟨JVal.null, some 7, none, none, none, "notes"⟩)
          (fun _ => 0) (fun _ _ => 50) "p2"
          (some ⟨some [("totalPrice", JVal.num 5)], some [("summary", JVal.str "s")],
            "body", some [⟨"f.pdf", "u", "application/pdf"⟩]⟩)).row = some r ∧
      (∃ ex ocrTotal conf,
        r.pricing = some (mergePricing [("totalPrice", JVal.num 5)] ex ocrTotal conf) ∧
        r.terms = some (mergeTerms [("summary", JVal.str "s")] ex)) ∧
      (∀ key, key ≠ "ocrDetectedItems" → key ≠ "ocrTotalAmount" →
        key ≠ "ocrConfidenceScore" →
        getKey (r.pricing.getD []) key = getKey [("totalPrice", JVal.num 5)] key) ∧
      (∀ key, key ≠ "ocrDeliveryTimeline" → key ≠ "ocrWarrantyInfo" →
        key ≠ "ocrPaymentTerms" → key ≠ "ocrAdditionalNotes" →
        getKey (r.terms.getD []) key = getKey [("summary", JVal.str "s")] key) :=
  C8_ocr_merge_frame.2.2 _ _ _ _ "p2" _ _ _ (by decide) rfl

theorem char_le_toNat {a b : Char} (h : a ≤ b) : a.toNat ≤ b.toNat := by
  exact_mod_cast Char.le_def.mp h

theorem hex_not_ws (c : Char) (h : isHexDigitCI c = true) : isWsJS c = false := by
  have hb : (48 ≤ c.toNat ∧ c.toNat ≤ 57) ∨ (97 ≤ c.toNat ∧ c.toNat ≤ 102) ∨
      (65 ≤ c.toNat ∧ c.toNat ≤ 70) := by
    unfold isHexDigitCI at h
    simp only [Bool.or_eq_true, Bool.and_eq_true, decide_eq_true_eq, or_assoc] at h
    rcases h with h | h | h
    · left
      simp [Char.isDigit] at h
      exact h
    · right; left
      have l1 := char_le_toNat h.1
      have l2 := char_le_toNat h.2
      have e1 : ('a' : Char).toNat = 97 := by decide
      have e2 : ('f' : Char).toNat = 102 := by decide
      omega
    · right; right
      have l1 := char_le_toNat h.1
      have l2 := char_le_toNat h.2
      have e1 : ('A' : Char).toNat = 65 := by decide
      have e2 : ('F' : Char).toNat = 70 := by decide
      omega
  cases hw : isWsJS c with
  | false => rfl
  | true =>
    exfalso
    unfold isWsJS at hw
    simp only [Bool.or_eq_true, Bool.and_eq_true, decide_eq_true_eq, or_assoc] at hw
    rcases hb with ⟨h1, h2⟩ | ⟨h1, h2⟩ | ⟨h1, h2⟩ <;>
    rcases hw with h' | h' | h' | h' | h' | h' | h' | h' | h' | h' | h' | h' | h' | h' | h' <;>
    first
      | (subst h'; exact absurd (And.intro h1 h2) (by decide))
      | omega

theorem takeHex_sound : ∀ (n : ℕ) (cs ds rest : List Char),
    takeHex n cs = some (ds, rest) →
    cs = ds ++ rest ∧ ds.length = n ∧ ∀ c ∈ ds, isHexDigitCI c = true := by
  intro n
  induction n with
  | zero =>
    intro cs ds rest h
    simp only [takeHex, Option.some.injEq, Prod.mk.injEq] at h
    obtain ⟨h1, h2⟩ := h
    subst h1
    subst h2
    simp
  | succ m ih =>
    intro cs ds rest h
    cases cs with
    | nil => simp [takeHex] at h
    | cons c cs' =>
      simp only [takeHex] at h
      cases hc : isHexDigitCI c with
      | false =>
        rw [hc] at h
        simp at h
      | true =>
        rw [hc] at h
        rw [if_pos rfl] at h
        cases ht : takeHex m cs' with
        | none =>
          rw [ht] at h
          simp at h
        | some pr =>
          obtain ⟨ds', r'⟩ := pr
          rw [ht] at h
          simp only [Option.some.injEq, Prod.mk.injEq] at h
          obtain ⟨hds, hrest⟩ := h
          subst hds
          subst hrest
          obtain ⟨e1, e2, e3⟩ := ih cs' ds' r' ht
          refine ⟨by simp [e1], by simp [e2], ?_⟩
          intro x hx
          rcases List.mem_cons.mp hx with hx | hx
          · subst hx; exact hc
          · exact e3 x hx

theorem takeHex_append : ∀ (ds rest : List Char),
    (∀ c ∈ ds, isHexDigitCI c = true) →
    takeHex ds.length (ds ++ rest) = some (ds, rest) := by
  intro ds
  induction ds with
  | nil => intro rest _; rfl
  | cons c ds' ih =>
    intro rest h
    have hc : isHexDigitCI c = true := h c (by simp)
    have ih' := ih rest (fun x hx => h x (by simp [hx]))
    simp [takeHex, List.cons_append, hc, ih']

theorem matchDash_eq : ∀ (l r : List Char), matchDash l = some r → l = '-' :: r := by
  intro l r h
  unfold matchDash at h
  split at h
  · simp only [Option.some.injEq] at h
    subst h
    rfl
  · exact absurd h (by simp)

theorem uuidFrom_build (a b c3 d e rest' : List Char)
    (ha : a.length = 8) (hb : b.length = 4) (hc : c3.length = 4)
    (hd : d.length = 4) (he : e.length = 12)
    (hxa : ∀ c ∈ a, isHexDigitCI c = true) (hxb : ∀ c ∈ b, isHexDigitCI c = true)
    (hxc : ∀ c ∈ c3, isHexDigitCI c = true) (hxd : ∀ c ∈ d, isHexDigitCI c = true)
    (hxe : ∀ c ∈ e, isHexDigitCI c = true) :
    uuidFrom (a ++ '-' :: (b ++ '-' :: (c3 ++ '-' :: (d ++ '-' :: (e ++ rest'))))) =
      some (a ++ '-' :: (b ++ '-' :: (c3 ++ '-' :: (d ++ '-' :: e))), rest') := by
  have t1 := takeHex_append a ('-' :: (b ++ '-' :: (c3 ++ '-' :: (d ++ '-' :: (e ++ rest'))))) hxa
  rw [ha] at t1
  have t2 := takeHex_append b ('-' :: (c3 ++ '-' :: (d ++ '-' :: (e ++ rest')))) hxb
  rw [hb] at t2
  have t3 := takeHex_append c3 ('-' :: (d ++ '-' :: (e ++ rest'))) hxc
  rw [hc] at t3
  have t4 := takeHex_append d ('-' :: (e ++ rest')) hxd
  rw [hd] at t4
  have t5 := takeHex_append e rest' hxe
  rw [he] at t5
  simp only [uuidFrom, t1, t2, t3, t4, t5, matchDash, Option.some.injEq, Prod.mk.injEq]
  simp [List.append_assoc]

theorem uuidFrom_sound : ∀ (cs w rest : List Char),
    uuidFrom cs = some (w, rest) →
    (∀ rest', uuidFrom (w ++ rest') = some (w, rest')) ∧
    (∀ c ∈ w, isHexDigitCI c = true ∨ c = '-') := by
  intro cs w rest h
  unfold uuidFrom at h
  split at h
  · simp at h
  next a r1 h1 =>
    split at h
    · simp at h
    next r1' h2 =>
      split at h
      · simp at h
      next b r2 h3 =>
        split at h
        · simp at h
        next r2' h4 =>
          split at h
          · simp at h
          next c3 r3 h5 =>
            split at h
            · simp at h
            next r3' h6 =>
              split at h
              · simp at h
              next d r4 h7 =>
                split at h
                · simp at h
                next r4' h8 =>
                  split at h
                  · simp at h
                  next e r5 h9 =>
                    simp only [Option.some.injEq, Prod.mk.injEq] at h
                    obtain ⟨hw, hrest⟩ := h
                    subst hw
                    obtain ⟨_, la, xa⟩ := takeHex_sound _ _ _ _ h1
                    obtain ⟨_, lb, xb⟩ := takeHex_sound _ _ _ _ h3
                    obtain ⟨_, lc, xc⟩ := takeHex_sound _ _ _ _ h5
                    obtain ⟨_, ld, xd⟩ := takeHex_sound _ _ _ _ h7
                    obtain ⟨_, le', xe⟩ := takeHex_sound _ _ _ _ h9
                    constructor
                    · intro rest'
                      have hbld := uuidFrom_build a b c3 d e rest' la lb lc ld le' xa xb xc xd xe
                      simp only [List.append_assoc, List.cons_append] at hbld ⊢
                      exact hbld
                    · intro x hx
                      simp only [List.append_assoc, List.cons_append, List.mem_append,
                        List.mem_cons] at hx
                      rcases hx with hx | hx | hx | hx | hx | hx | hx | hx | hx
                      · exact Or.inl (xa x hx)
                      · exact Or.inr hx
                      · exact Or.inl (xb x hx)
                      · exact Or.inr hx
                      · exact Or.inl (xc x hx)
                      · exact Or.inr hx
                      · exact Or.inl (xd x hx)
                      · exact Or.inr hx
                      · exact Or.inl (xe x hx)

theorem extractRfpId_props : ∀ (cs u : List Char), extractRfpId cs = some u →
    wellFormedUuid u = true ∧ ∀ c ∈ u, isWsJS c = false := by
  intro cs
  induction cs with
  | nil => intro u h; exact absurd h (by simp [extractRfpId])
  | cons c cs ih =>
    intro u h
    unfold extractRfpId at h
    split at h
    case _ u' hat =>
      simp only [Option.some.injEq] at h
      subst h
      unfold rfpIdAt at hat
      split at hat
      · simp at hat
      next r heq1 =>
        split at hat
        · simp at hat
        next w rest heq2 =>
          simp only [Option.some.injEq] at hat
          subst hat
          obtain ⟨hbuild, hmem⟩ := uuidFrom_sound _ _ _ heq2
          constructor
          · have hself := hbuild []
            rw [List.append_nil] at hself
            simp [wellFormedUuid, hself]
          · intro x hx
            rcases hmem x hx with hhex | hdash
            · exact hex_not_ws x hhex
            · subst hdash; decide
    case _ hat =>
      exact ih u h

theorem trimJS_eq_self (cs : List Char) (h : ∀ c ∈ cs, isWsJS c = false) :
    trimJS cs = cs := by
  unfold trimJS
  have h1 : cs.dropWhile isWsJS = cs := by
    cases cs with
    | nil => rfl
    | cons c cs' =>
      rw [List.dropWhile_cons, h c (by simp), if_neg Bool.false_ne_true]
  rw [h1]
  have h2 : cs.reverse.dropWhile isWsJS = cs.reverse := by
    cases hrev : cs.reverse with
    | nil => rfl
    | cons c cs' =>
      have hcm : c ∈ cs := by
        rw [← List.mem_reverse, hrev]
        simp
      rw [List.dropWhile_cons, h c hcm, if_neg Bool.false_ne_true]
  rw [h2, List.reverse_reverse]

theorem uuidTest_of_wellFormed (u : List Char) (h : wellFormedUuid u = true) :
    uuidTest u = true := by
  cases u with
  | nil => exact absurd h (by decide)
  | cons c cs =>
    unfold wellFormedUuid at h
    unfold uuidTest
    cases hu : uuidFrom (c :: cs) with
    | none => rw [hu] at h; simp at h
    | some pr => simp

/-- C4 counterexample: a body carrying `RFP-ID:` followed by the UUID-shaped
id `11111111-1111-1111-1111-111111111111` — whose version nibble is 1, so it
is not a well-formed version-4 UUID — is not rejected with 400: the webhook
accepts it (201) and creates a proposal row under that id. -/
theorem C4_counterexample :
    inboundProposal "RFP-ID: 11111111-1111-1111-1111-111111111111" "v@x.com"
        ⟨[("11111111-1111-1111-1111-111111111111", RStatus.sent)],
         [⟨"v1", "v@x.com"⟩],
         [("11111111-1111-1111-1111-111111111111", "v1", VStatus.vsent)], []⟩ =
      (201, ⟨[("11111111-1111-1111-1111-111111111111", RStatus.responded)],
         [⟨"v1", "v@x.com"⟩],
         [("11111111-1111-1111-1111-111111111111", "v1", VStatus.vresponded)],
         [("11111111-1111-1111-1111-111111111111", "v1")]⟩) ∧
    isV4Uuid ("11111111-1111-1111-1111-111111111111".toList) = false := by
  constructor
  · decide
  · decide

/-- C4 (amended): the webhook's correlation gate accepts exactly the bodies
from which a well-formed UUID-shaped id (8-4-4-4-12 hex, any version, marker
matched case-insensitively) can be extracted after the `RFP-ID:` marker; when
no such match exists the request is answered 400 with the database — in
particular the proposal table — unchanged, and every extracted id is
well-formed. -/
theorem C4_uuid_gate :
    (∀ (rawEmail fromHeader : String) (db : DB),
      extractedRfpId rawEmail = none →
      inboundProposal rawEmail fromHeader db = (400, db)) ∧
    (∀ (body u : List Char), extractRfpId body = some u → wellFormedUuid u = true) ∧
    (∀ rawEmail : String,
      webhookGate rawEmail = (extractRfpId rawEmail.toList).isSome) := by
  refine ⟨?_, ?_, ?_⟩
  · intro raw frm db hnone
    simp only [inboundProposal]
    by_cases hf : String.mk (trimJS frm.toList) = ""
    · rw [if_pos hf]
    · rw [if_neg hf, hnone]
  · intro body u h
    exact (extractRfpId_props body u h).1
  · intro raw
    cases hex : extractRfpId raw.toList with
    | none =>
      simp only [String.toList] at hex
      simp [webhookGate, extractedRfpId, String.toList, hex]
    | some u =>
      obtain ⟨hwf, hws⟩ := extractRfpId_props _ _ hex
      have htrim : trimJS u = u := trimJS_eq_self u hws
      simp only [webhookGate, extractedRfpId, hex, Option.map_some', htrim,
        Option.isSome_some]
      exact uuidTest_of_wellFormed u hwf

theorem C4_witness :
    inboundProposal "no marker here" "a@b.c" DB.empty = (400, DB.empty) :=
  C4_uuid_gate.1 "no marker here" "a@b.c" DB.empty (by decide)

theorem findStatus_cons (k : String) (s : RStatus) (l : List (String × RStatus))
    (id : String) :
    findStatus ((k, s) :: l) id = if (k == id) = true then some s else findStatus l id := by
  unfold findStatus
  cases hk : (k == id) with
  | true =>
    rw [List.find?_cons_of_pos _ (by simpa using hk)]
    simp
  | false =>
    rw [List.find?_cons_of_neg _ (by simp [hk])]
    simp [hk]

theorem findStatus_setStatus (l : List (String × RStatus)) (rid : String)
    (st : RStatus) (id : String) :
    findStatus (setStatus l rid st) id =
      if rid = id then (findStatus l id).map (fun _ => st) else findStatus l id := by
  induction l with
  | nil => by_cases h : rid = id <;> simp [setStatus, findStatus, h]
  | cons p l' ih =>
    obtain ⟨k, s0⟩ := p
    simp only [setStatus, List.map_cons] at ih ⊢
    by_cases hk : (k == rid) = true
    · rw [if_pos hk]
      have hk' : k = rid := by simpa using hk
      subst hk'
      by_cases hr : k = id
      · subst hr
        rw [if_pos rfl, findStatus_cons, findStatus_cons]
        simp
      · rw [if_neg hr, findStatus_cons, findStatus_cons]
        have hkid : (k == id) = false := by simpa using hr
        rw [hkid]
        simp only [Bool.false_eq_true, if_false]
        have := ih
        rw [if_neg hr] at this
        exact this
    · rw [if_neg hk]
      by_cases hki : (k == id) = true
      · rw [findStatus_cons, if_pos hki]
        by_cases hr : rid = id
        · exfalso
          have h1 : k = id := by simpa using hki
          exact hk (by simp [h1, hr])
        · rw [if_neg hr, findStatus_cons, if_pos hki]
      · rw [findStatus_cons, if_neg hki, ih]
        by_cases hr : rid = id
        · rw [if_pos hr, if_pos hr, findStatus_cons, if_neg hki]
        · rw [if_neg hr, if_neg hr, findStatus_cons, if_neg hki]

theorem rank_le_three (st : RStatus) : st.rank ≤ 3 := by
  cases st <;> simp [RStatus.rank]

theorem rankO_le_three (o : Option RStatus) : rankO o ≤ 3 := by
  cases o with
  | none => simp [rankO]
  | some st => exact rank_le_three st

theorem rfpCreate_rank (nid : String) (db : DB) (id : String) :
    rankO (lookupRfp db id) ≤ rankO (lookupRfp (rfpCreate nid db).2 id) := by
  unfold rfpCreate
  split
  · exact le_refl _
  next hany =>
    show rankO (findStatus db.rfps id) ≤
      rankO (findStatus ((nid, RStatus.draft) :: db.rfps) id)
    rw [findStatus_cons]
    by_cases hni : (nid == id) = true
    · rw [if_pos hni]
      cases hfs : findStatus db.rfps id with
      | none => simp [rankO]
      | some st =>
        exfalso
        apply hany
        unfold findStatus at hfs
        cases hfind : db.rfps.find? (fun p => p.1 == id) with
        | none => rw [hfind] at hfs; simp at hfs
        | some pr =>
          have hmem := List.mem_of_find?_eq_some hfind
          have hpred := List.find?_some hfind
          apply List.any_eq_true.mpr
          refine ⟨pr, hmem, ?_⟩
          have hni' : nid = id := by simpa using hni
          rw [hni']
          exact hpred
    · rw [if_neg hni]

theorem sendRfp_rank (r : String) (vids : List String) (db : DB) (id : String)
    (h : r = id → rankO (lookupRfp db id) ≤ 1) :
    rankO (lookupRfp db id) ≤ rankO (lookupRfp (sendRfp r vids db).2 id) := by
  simp only [sendRfp]
  split
  · exact le_refl _
  · split
    · exact le_refl _
    · split
      · exact le_refl _
      · show rankO (findStatus db.rfps id) ≤
          rankO (findStatus (setStatus db.rfps r RStatus.sent) id)
        rw [findStatus_setStatus]
        by_cases hr : r = id
        · rw [if_pos hr]
          have h' : rankO (findStatus db.rfps id) ≤ 1 := h hr
          cases hfs : findStatus db.rfps id with
          | none => simp [rankO]
          | some st =>
            rw [hfs] at h'
            simpa [rankO, RStatus.rank] using h'
        · rw [if_neg hr]

theorem inboundProposal_rank (raw frm : String) (db : DB) (id : String) :
    rankO (lookupRfp db id) ≤ rankO (lookupRfp (inboundProposal raw frm db).2 id) := by
  simp only [inboundProposal]
  split
  · exact le_refl _
  split
  · exact le_refl _
  next rfpId hex =>
    split
    · exact le_refl _
    split
    · exact le_refl _
    next vendor hv =>
      split
      · exact le_refl _
      split
      · exact le_refl _
      split
      · exact le_refl _
      split
      · exact le_refl _
      next val hne heq =>
        show rankO (findStatus db.rfps id) ≤
          rankO (findStatus (setStatus db.rfps rfpId RStatus.responded) id)
        rw [findStatus_setStatus]
        by_cases hr : rfpId = id
        · subst hr
          have heq' : findStatus db.rfps rfpId = some val := heq
          rw [heq', if_pos rfl]
          cases val with
          | completed => exact absurd rfl hne
          | draft => simp [rankO, RStatus.rank]
          | sent => simp [rankO, RStatus.rank]
          | responded => simp [rankO, RStatus.rank]
        · rw [if_neg hr]
      · exact le_refl _

theorem compareRfp_rank (r : String) (db : DB) (id : String) :
    rankO (lookupRfp db id) ≤ rankO (lookupRfp (compareRfp r db).2 id) := by
  unfold compareRfp
  split
  · exact le_refl _
  · split
    · exact le_refl _
    · show rankO (findStatus db.rfps id) ≤
        rankO (findStatus (setStatus db.rfps r RStatus.completed) id)
      rw [findStatus_setStatus]
      by_cases hr : r = id
      · rw [if_pos hr]
        cases hfs : findStatus db.rfps id with
        | none => simp [rankO]
        | some st =>
          simp only [rankO, Option.map_some']
          exact rank_le_three st
      · rw [if_neg hr]

theorem vendorsPost_rank (nid nm em : String) (db : DB) (id : String) :
    rankO (lookupRfp db id) ≤ rankO (lookupRfp (vendorsPost nid nm em db).2 id) := by
  unfold vendorsPost
  split
  · exact le_refl _
  · split
    · exact le_refl _
    · exact le_refl _

theorem vendorDelete_rank (v : String) (db : DB) (id : String) :
    rankO (lookupRfp db id) ≤ rankO (lookupRfp (vendorDelete v db).2 id) := by
  unfold vendorDelete
  split
  · exact le_refl _
  · split
    · exact le_refl _
    · exact le_refl _

theorem applyStep_rank (s : Step) (id : String) (db : DB)
    (h : sendOkAt id db s = true) :
    rankO (lookupRfp db id) ≤ rankO (lookupRfp (applyStep s db) id) := by
  cases s with
  | create nid => exact rfpCreate_rank nid db id
  | send r vids =>
    apply sendRfp_rank
    intro hr
    subst hr
    simp only [sendOkAt] at h
    simpa using h
  | inbound raw frm => exact inboundProposal_rank raw frm db id
  | compare r => exact compareRfp_rank r db id
  | vendorNew nid nm em => exact vendorsPost_rank nid nm em db id
  | vendorDel v => exact vendorDelete_rank v db id

theorem statusTrace_head (id : String) (db : DB) (steps : List Step) :
    (statusTrace id db steps).head? = some (lookupRfp db id) := by
  cases steps <;> rfl

/-- C3 counterexample: from a fresh RFP in `draft`, the sequence dispatch,
inbound proposal, dispatch yields the status trace draft, sent, responded,
sent — the final dispatch moves the status backwards from `responded` to
`sent`, so the claimed forward-only invariant fails. -/
theorem C3_counterexample :
    statusTrace "11111111-1111-1111-1111-111111111111"
      ⟨[("11111111-1111-1111-1111-111111111111", RStatus.draft)],
        [⟨"v1", "v@x.com"⟩], [], []⟩
      [Step.send "11111111-1111-1111-1111-111111111111" ["v1"],
       Step.inbound "RFP-ID: 11111111-1111-1111-1111-111111111111" "v@x.com",
       Step.send "11111111-1111-1111-1111-111111111111" ["v1"]] =
      [some RStatus.draft, some RStatus.sent, some RStatus.responded,
        some RStatus.sent] ∧
    ¬ List.Chain' (fun a b => rankO a ≤ rankO b)
      [some RStatus.draft, some RStatus.sent, some RStatus.responded,
        some RStatus.sent] := by
  constructor
  · decide
  · simp [List.chain'_cons, List.chain'_singleton, rankO, RStatus.rank]

/-- C3 (amended): the webhook and comparison handlers never move an RFP's
status backwards, and neither does dispatch run while the status is `draft`
or `sent`; but dispatch always sets the status to `sent`, so dispatching an
RFP whose status is already `responded` or `completed` resets it.  For every
handler sequence in which each dispatch targeting the RFP happens while its
status is `draft` or `sent`, the observed status sequence is nondecreasing in
the order draft, sent, responded, completed. -/
theorem C3_status_forward :
    ∀ (id : String) (steps : List Step) (db : DB),
      sendSafe id db steps = true →
      List.Chain' (fun a b => rankO a ≤ rankO b) (statusTrace id db steps) := by
  intro id steps
  induction steps with
  | nil =>
    intro db _
    exact List.chain'_singleton _
  | cons s rest ih =>
    intro db h
    simp only [sendSafe, Bool.and_eq_true] at h
    obtain ⟨h1, h2⟩ := h
    show List.Chain' _ (lookupRfp db id :: statusTrace id (applyStep s db) rest)
    rw [List.chain'_cons']
    constructor
    · intro x hx
      rw [statusTrace_head] at hx
      simp only [Option.mem_def, Option.some.injEq] at hx
      subst hx
      exact applyStep_rank s id db h1
    · exact ih (applyStep s db) h2

theorem C3_witness :
    sendSafe "r" ⟨[("r", RStatus.draft)], [⟨"v1", "v@x.com"⟩], [], []⟩
        [Step.send "r" ["v1"], Step.compare "r"] = true ∧
    List.Chain' (fun a b => rankO a ≤ rankO b)
      (statusTrace "r" ⟨[("r", RStatus.draft)], [⟨"v1", "v@x.com"⟩], [], []⟩
        [Step.send "r" ["v1"], Step.compare "r"]) :=
  ⟨by decide, C3_status_forward "r" _ _ (by decide)⟩

theorem rfpCreate_proposals (nid : String) (db : DB) :
    ((rfpCreate nid db).2).proposals = db.proposals := by
  unfold rfpCreate
  split <;> rfl

theorem sendRfp_proposals (r : String) (vids : List String) (db : DB) :
    ((sendRfp r vids db).2).proposals = db.proposals := by
  simp only [sendRfp]
  split
  · rfl
  split
  · rfl
  split
  · rfl
  · rfl

theorem compareRfp_proposals (r : String) (db : DB) :
    ((compareRfp r db).2).proposals = db.proposals := by
  unfold compareRfp
  split
  · rfl
  split <;> rfl

theorem vendorsPost_proposals (nid nm em : String) (db : DB) :
    ((vendorsPost nid nm em db).2).proposals = db.proposals := by
  unfold vendorsPost
  split
  · rfl
  split <;> rfl

theorem vendorDelete_nodup (v : String) (db : DB) (h : db.proposals.Nodup) :
    (((vendorDelete v db).2).proposals).Nodup := by
  unfold vendorDelete
  split
  · exact h
  split
  · exact List.Nodup.filter _ h
  · exact h

theorem inboundProposal_nodup (raw frm : String) (db : DB)
    (h : db.proposals.Nodup) :
    (((inboundProposal raw frm db).2).proposals).Nodup := by
  simp only [inboundProposal]
  split
  · exact h
  split
  · exact h
  next rfpId hex =>
    split
    · exact h
    split
    · exact h
    next vendor hv =>
      split
      · exact h
      next hdup =>
        split
        · exact h
        split
        · exact h
        have hnotmem : (rfpId, vendor.vid) ∉ db.proposals := by
          intro hmem
          apply hdup
          apply List.any_eq_true.mpr
          exact ⟨(rfpId, vendor.vid), hmem, by simp⟩
        have hcons : ((rfpId, vendor.vid) :: db.proposals).Nodup :=
          List.nodup_cons.mpr ⟨hnotmem, h⟩
        split
        · exact hcons
        · exact hcons
        · exact hcons

theorem applyStep_nodup (s : Step) (db : DB) (h : db.proposals.Nodup) :
    ((applyStep s db).proposals).Nodup := by
  cases s with
  | create nid =>
    simp only [applyStep]
    rw [rfpCreate_proposals]
    exact h
  | send r vids =>
    simp only [applyStep]
    rw [sendRfp_proposals]
    exact h
  | inbound raw frm => exact inboundProposal_nodup raw frm db h
  | compare r =>
    simp only [applyStep]
    rw [compareRfp_proposals]
    exact h
  | vendorNew nid nm em =>
    simp only [applyStep]
    rw [vendorsPost_proposals]
    exact h
  | vendorDel v => exact vendorDelete_nodup v db h

theorem runStepsFrom_nodup : ∀ (steps : List Step) (db : DB),
    db.proposals.Nodup → ((runStepsFrom db steps).proposals).Nodup := by
  intro steps
  induction steps with
  | nil => intro db h; exact h
  | cons s rest ih =>
    intro db h
    exact ih (applyStep s db) (applyStep_nodup s db h)

/-- C7: in every database state reachable from the migrated schema by the
modelled handlers, the pair (rfpId, vendorId) is unique over the Proposal
table; and a second inbound proposal from the same vendor address for the
same RFP cannot create a second row — the webhook's transaction fails with
500 and the state is unchanged. -/
theorem C7_proposal_pair_unique :
    (∀ steps : List Step, ((runSteps steps).proposals).Nodup) ∧
    (∀ (db : DB) (rawEmail fromHeader rfpId : String) (vendor : VendorRow),
      String.mk (trimJS fromHeader.toList) ≠ "" →
      extractedRfpId rawEmail = some rfpId →
      findVendorByEmail db
        (parseVendorEmail (String.mk (trimJS fromHeader.toList))) = some vendor →
      (rfpId, vendor.vid) ∈ db.proposals →
      inboundProposal rawEmail fromHeader db = (500, db)) := by
  constructor
  · intro steps
    exact runStepsFrom_nodup steps DB.empty List.nodup_nil
  · intro db raw frm rfpId vendor hfrom hext hvendor hdup
    have hexists : ∃ u, extractRfpId raw.toList = some u ∧
        rfpId = String.mk (trimJS u) := by
      unfold extractedRfpId at hext
      cases he : extractRfpId raw.toList with
      | none => rw [he] at hext; simp at hext
      | some u =>
        rw [he] at hext
        simp only [Option.map_some', Option.some.injEq] at hext
        exact ⟨u, rfl, hext.symm⟩
    obtain ⟨u, he, hrid⟩ := hexists
    obtain ⟨hwf, hws⟩ := extractRfpId_props _ _ he
    have htrim := trimJS_eq_self u hws
    have htest : uuidTest rfpId.toList = true := by
      rw [hrid]
      show uuidTest (trimJS u) = true
      rw [htrim]
      exact uuidTest_of_wellFormed u hwf
    simp only [String.toList] at htest hvendor hfrom
    simp [inboundProposal, if_neg hfrom, hext, htest, hvendor, hdup]

theorem C7_witness :
    inboundProposal "RFP-ID: 22222222-2222-2222-2222-222222222222" "w@y.com"
        ⟨[("22222222-2222-2222-2222-222222222222", RStatus.responded)],
         [⟨"w1", "w@y.com"⟩],
         [("22222222-2222-2222-2222-222222222222", "w1", VStatus.vresponded)],
         [("22222222-2222-2222-2222-222222222222", "w1")]⟩ =
      (500, ⟨[("22222222-2222-2222-2222-222222222222", RStatus.responded)],
         [⟨"w1", "w@y.com"⟩],
         [("22222222-2222-2222-2222-222222222222", "w1", VStatus.vresponded)],
         [("22222222-2222-2222-2222-222222222222", "w1")]⟩) :=
  C7_proposal_pair_unique.2 _ "RFP-ID: 22222222-2222-2222-2222-222222222222"
    "w@y.com" "22222222-2222-2222-2222-222222222222" ⟨"w1", "w@y.com"⟩
    (by decide) (by decide) (by decide) (by decide)

end AiRfp
